import Mathlib

/-!
Shallow embedding of the `fastapi-metrics-monitoring` repository.

The embedding covers `app/metrics/http_metrics.py` (class
`HTTPMetricsCollector`) and `app/metrics/metrics_utils.py` (class
`MetricsAnalyzer`).

Modelling conventions:
* Wall-clock readings (`time.time()`) are passed as explicit `ℚ`
  parameters; the several `time.time()` reads inside one Python method are
  modelled as a single instant.
* Python strings are Lean `String`s (in this toolchain a wrapper around
  `List Char`); path manipulation is carried out on `List Char`.
* Prometheus `Counter` families (`.labels(...)` children) are modelled as
  insertion-ordered association lists from label tuples to `Nat` values,
  `Gauge`s as `ℚ` values, and `Histogram` families as the list of
  `(labels, value)` observation events in order.
* Python dicts (`active_requests`) are insertion-ordered association
  lists with unique keys; assignment replaces in place, `pop` removes.
* `str.isdigit` is modelled as "non-empty and every character is an ASCII
  decimal digit" (the spec's reading; CPython additionally accepts some
  non-ASCII Unicode digit code points, which are outside this model).
* Python `round(x, 2)` (bankers rounding to two decimal places) is
  modelled exactly on `ℚ` by `round2`.
-/

namespace FastapiMetrics

/-- Python `part.isdigit()` restricted to ASCII decimal digits: true iff the
segment is non-empty and every character is one of `0`..`9`. -/
def pyIsDigit (s : List Char) : Bool :=
  !s.isEmpty && s.all (fun c => decide ('0' ≤ c) && decide (c ≤ '9'))

/-- Python `str.split(sep)` for a one-character separator: splitting the
empty string gives `[""]`, and `n` separators produce `n + 1` fields. -/
def splitChar (sep : Char) : List Char → List (List Char)
  | [] => [[]]
  | c :: cs =>
    if c = sep then [] :: splitChar sep cs
    else
      match splitChar sep cs with
      | [] => [[c]]
      | s :: ss => (c :: s) :: ss

/-- Python `'/'.join(parts)` for a one-character separator. -/
def joinChar (sep : Char) : List (List Char) → List Char
  | [] => []
  | [p] => p
  | p :: ps => p ++ sep :: joinChar sep ps

/-- The literal placeholder `{id}` substituted for numeric path segments. -/
def idPlaceholder : List Char := ['\x7b', 'i', 'd', '\x7d']

/-- Lines 209-211 of `http_metrics.py`: `if '?' in path: path = path.split('?')[0]`. -/
def stripQuery (path : List Char) : List Char :=
  if '?' ∈ path then (splitChar '?' path).headD [] else path

/-- The per-segment branch of `_normalize_endpoint` (lines 219-225):
all-digit segments become `{id}`; brace-wrapped segments are kept as-is;
every other segment is kept unchanged. -/
def normalizeSegment (part : List Char) : List Char :=
  if pyIsDigit part then idPlaceholder
  else if 0 < part.length ∧ part.headD ' ' = '\x7b' ∧ part.getLastD ' ' = '\x7d' then part
  else part

/-- `_normalize_endpoint` on the character-list representation: strip the
query string, split on `/`, normalize each segment, rejoin with `/`. -/
def normalizeChars (path : List Char) : List Char :=
  joinChar '/' ((splitChar '/' (stripQuery path)).map normalizeSegment)

/-- `HTTPMetricsCollector._normalize_endpoint` (lines 199-227). -/
def normalize_endpoint (path : String) : String :=
  String.mk (normalizeChars path.data)

/-- `HTTPMetricsCollector._get_status_class` (lines 229-242). -/
def get_status_class (status_code : Int) : String :=
  if 100 ≤ status_code ∧ status_code < 200 then "1xx"
  else if 200 ≤ status_code ∧ status_code < 300 then "2xx"
  else if 300 ≤ status_code ∧ status_code < 400 then "3xx"
  else if 400 ≤ status_code ∧ status_code < 500 then "4xx"
  else if 500 ≤ status_code ∧ status_code < 600 then "5xx"
  else "unknown"

/-- `HTTPMetricsCollector._classify_error_by_status` (lines 244-271). -/
def classify_error_by_status (status_code : Int) : String :=
  if status_code = 400 then "bad_request"
  else if status_code = 401 then "unauthorized"
  else if status_code = 403 then "forbidden"
  else if status_code = 404 then "not_found"
  else if status_code = 405 then "method_not_allowed"
  else if status_code = 422 then "validation_error"
  else if status_code = 429 then "rate_limited"
  else if 400 ≤ status_code ∧ status_code < 500 then "client_error"
  else if status_code = 500 then "internal_server_error"
  else if status_code = 502 then "bad_gateway"
  else if status_code = 503 then "service_unavailable"
  else if 500 ≤ status_code ∧ status_code < 600 then "server_error"
  else "unknown_error"

/-- Increment a labelled Prometheus counter child: `.labels(k).inc()`.
A missing child is created with value `1`; insertion order is kept. -/
def incCounter {α : Type} [DecidableEq α] : List (α × Nat) → α → List (α × Nat)
  | [], k => [(k, 1)]
  | (k2, v) :: rest, k =>
    if k2 = k then (k2, v + 1) :: rest else (k2, v) :: incCounter rest k

/-- `sum(counter._value._value for counter in metric._metrics.values())`. -/
def sumCounter {α : Type} (l : List (α × Nat)) : Nat :=
  (l.map Prod.snd).sum

/-- Python dict read `d.get(k)` / `k in d` on an association list. -/
def lookupKey (k : String) : List (String × ℚ) → Option ℚ
  | [] => none
  | (k2, v) :: rest => if k2 = k then some v else lookupKey k rest

/-- Python dict assignment `d[k] = v`: replace in place, else append. -/
def dictInsert (l : List (String × ℚ)) (k : String) (v : ℚ) : List (String × ℚ) :=
  match l with
  | [] => [(k, v)]
  | (k2, w) :: rest =>
    if k2 = k then (k2, v) :: rest else (k2, w) :: dictInsert rest k v

/-- Python dict `d.pop(k)`: remove the entry for `k` (the key is unique). -/
def removeKey (k : String) : List (String × ℚ) → List (String × ℚ)
  | [] => []
  | (k2, v) :: rest => if k2 = k then rest else (k2, v) :: removeKey k rest

/-- Lines 106-109 of `start_request`: append the start timestamp and drop
the oldest entry once the history exceeds 1000 entries. -/
def pushHistory (h : List ℚ) (t : ℚ) : List ℚ :=
  let h2 := h ++ [t]
  if 1000 < h2.length then h2.tail else h2

/-- State of one `HTTPMetricsCollector` instance.  Counter families are
association lists of children, gauges are plain values, histogram families
are observation-event lists; `selfId` models the CPython `id(self)`
discriminator used in request identifiers. -/
structure Collector where
  selfId : Nat
  http_requests_total : List ((String × String × String) × Nat)
  http_request_duration_seconds : List ((String × String) × ℚ)
  http_request_size_bytes : List ((String × String) × ℚ)
  http_response_size_bytes : List ((String × String × String) × ℚ)
  http_requests_active : ℚ
  http_request_errors_total : List ((String × String × String × String) × Nat)
  http_requests_by_status : List ((String × String) × Nat)
  http_request_rate_per_second : ℚ
  http_slow_requests_total : List ((String × String) × Nat)
  active_requests : List (String × ℚ)
  request_history : List ℚ
deriving DecidableEq

/-- `HTTPMetricsCollector.__init__`: all metric families empty, gauges 0. -/
def initialCollector (selfId : Nat) : Collector where
  selfId := selfId
  http_requests_total := []
  http_request_duration_seconds := []
  http_request_size_bytes := []
  http_response_size_bytes := []
  http_requests_active := 0
  http_request_errors_total := []
  http_requests_by_status := []
  http_request_rate_per_second := 0
  http_slow_requests_total := []
  active_requests := []
  request_history := []

/-- Line 96: `request_id = f"{method}_{path}_{time.time()}_{id(self)}"`. -/
def mkRequestId (method path : String) (t : ℚ) (selfId : Nat) : String :=
  method ++ "_" ++ path ++ "_" ++ toString t ++ "_" ++ toString selfId

/-- `HTTPMetricsCollector._update_request_rate` (lines 273-285): set the
rate gauge to (number of history entries in the last 60 seconds) / 60,
or 0 when there are none. -/
def update_request_rate (c : Collector) (t : ℚ) : Collector :=
  let minute_ago := t - 60
  let recent_requests := c.request_history.filter (fun x => minute_ago < x)
  if recent_requests.isEmpty then
    { c with http_request_rate_per_second := 0 }
  else
    { c with http_request_rate_per_second := (recent_requests.length : ℚ) / 60 }

/-- `HTTPMetricsCollector.start_request` (lines 84-118), with the clock
reading `t` passed explicitly.  Returns the request id and new state. -/
def start_request (c : Collector) (method path : String)
    (request_size : Option ℚ) (t : ℚ) : String × Collector :=
  let request_id := mkRequestId method path t c.selfId
  let c := { c with http_requests_active := c.http_requests_active + 1 }
  let c := { c with active_requests := dictInsert c.active_requests request_id t }
  let c := { c with request_history := pushHistory c.request_history t }
  let c :=
    match request_size with
    | some sz =>
        { c with http_request_size_bytes := c.http_request_size_bytes ++ [((method, normalize_endpoint path), sz)] }
    | none => c
  (request_id, c)

/-- Python truthiness of the `error_type: Optional[str]` argument:
`None` and the empty string are falsy. -/
def truthy : Option String → Bool
  | some s => !s.isEmpty
  | none => false

/-- `error_type or self._classify_error_by_status(status_code)`. -/
def errorLabel (error_type : Option String) (status_code : Int) : String :=
  match error_type with
  | some s => if s.isEmpty then classify_error_by_status status_code else s
  | none => classify_error_by_status status_code

/-- `HTTPMetricsCollector.finish_request` (lines 120-197), with the clock
reading `t` passed explicitly.  Unknown request ids are a no-op. -/
def finish_request (c : Collector) (request_id method path : String)
    (status_code : Int) (response_size : Option ℚ)
    (error_type : Option String) (t : ℚ) : Collector :=
  match lookupKey request_id c.active_requests with
  | none => c
  | some start_time =>
    let c := { c with active_requests := removeKey request_id c.active_requests }
    let duration := t - start_time
    let c := { c with http_requests_active := c.http_requests_active - 1 }
    let endpoint := normalize_endpoint path
    let c := { c with http_requests_total := incCounter c.http_requests_total (method, endpoint, toString status_code) }
    let c := { c with http_request_duration_seconds := c.http_request_duration_seconds ++ [((method, endpoint), duration)] }
    let c :=
      match response_size with
      | some sz =>
          { c with http_response_size_bytes := c.http_response_size_bytes ++ [((method, endpoint, toString status_code), sz)] }
      | none => c
    let c := { c with http_requests_by_status := incCounter c.http_requests_by_status (get_status_class status_code, method) }
    let c :=
      if 1 < duration then
        { c with http_slow_requests_total := incCounter c.http_slow_requests_total (method, endpoint) }
      else c
    let c :=
      if truthy error_type || decide (400 ≤ status_code) then
        { c with http_request_errors_total := incCounter c.http_request_errors_total (method, endpoint, errorLabel error_type status_code, toString status_code) }
      else c
    update_request_rate c t

/-- `HTTPMetricsCollector.calculate_request_rate` (lines 287-303). -/
def calculate_request_rate (c : Collector) (t : ℚ) (time_window : Int) : ℚ :=
  let window_start := t - time_window
  let requests_in_window := c.request_history.filter (fun x => window_start < x)
  if ¬requests_in_window.isEmpty ∧ 0 < time_window then
    (requests_in_window.length : ℚ) / (time_window : ℚ)
  else 0

/-- `HTTPMetricsCollector.get_error_rate` (lines 305-320): lifetime error
total divided by (windowed rate × window), as a percentage, 0 when the
denominator is not positive. -/
def get_error_rate (c : Collector) (t : ℚ) (time_window : Int) : ℚ :=
  let total := calculate_request_rate c t time_window * (time_window : ℚ)
  let errors := (sumCounter c.http_request_errors_total : ℚ)
  if 0 < total then errors / total * 100 else 0

/-! ### `MetricsAnalyzer` (`app/metrics/metrics_utils.py`)

`calculate_system_health_score` and `get_alert_conditions` read the
current cpu / memory / error-rate / active-request values out of
`system_metrics.get_system_summary()` and
`http_metrics.get_metrics_summary()`; those current values (and the
`time.time()` stamp) are passed as explicit parameters here. -/

/-- `MetricsAnalyzer.alert_thresholds` (lines 15-21). -/
def cpu_percent_threshold : ℚ := 80
def memory_percent_threshold : ℚ := 85
def error_rate_percent_threshold : ℚ := 5
def active_requests_threshold : ℚ := 100

/-- Round half to even on integers represented inside `ℚ`: the value
Python `round(q)` produces for an exactly-representable `q`. -/
def roundHalfEven (q : ℚ) : Int :=
  let f : Int := ⌊q⌋
  let frac : ℚ := q - (f : ℚ)
  if frac < 1 / 2 then f
  else if 1 / 2 < frac then f + 1
  else if f % 2 = 0 then f else f + 1

/-- Python `round(q, 2)` modelled exactly on rationals. -/
def round2 (q : ℚ) : ℚ :=
  (roundHalfEven (q * 100) : ℚ) / 100

/-- Result record of `calculate_system_health_score`. -/
structure HealthScore where
  overall_score : ℚ
  status : String
  scores_cpu : ℚ
  scores_memory : ℚ
  scores_error_rate : ℚ
  scores_load : ℚ
  timestamp : ℚ
deriving DecidableEq

/-- `MetricsAnalyzer.calculate_system_health_score` (lines 43-92). -/
def calculate_system_health_score (cpu_percent memory_percent
    error_rate_percent active_requests t : ℚ) : HealthScore :=
  let scores_cpu := max 0 (100 - cpu_percent / cpu_percent_threshold * 100)
  let scores_memory := max 0 (100 - memory_percent / memory_percent_threshold * 100)
  let scores_error_rate := max 0 (100 - error_rate_percent / error_rate_percent_threshold * 100)
  let scores_load := max 0 (100 - active_requests / active_requests_threshold * 100)
  let overall_score := (scores_cpu + scores_memory + scores_error_rate + scores_load) / 4
  let status :=
    if 90 ≤ overall_score then "excellent"
    else if 75 ≤ overall_score then "good"
    else if 60 ≤ overall_score then "fair"
    else if 40 ≤ overall_score then "poor"
    else "critical"
  { overall_score := round2 overall_score
    status := status
    scores_cpu := scores_cpu
    scores_memory := scores_memory
    scores_error_rate := scores_error_rate
    scores_load := scores_load
    timestamp := t }

/-- One alert entry appended by `get_alert_conditions`; the formatted
`message` string (pure presentation) is not modelled. -/
structure Alert where
  type_ : String
  value : ℚ
  threshold : ℚ
deriving DecidableEq

/-- The three alert buckets returned by `get_alert_conditions`. -/
structure AlertConditions where
  active : List Alert
  warnings : List Alert
  info : List Alert
  timestamp : ℚ
deriving DecidableEq

/-- `MetricsAnalyzer.get_alert_conditions` (lines 94-175).  Each signal
appends to `active` (and cpu / memory, via `elif`, to `warnings`) exactly
as the chain of `if` statements in the source does. -/
def get_alert_conditions (cpu_percent memory_percent
    error_rate_percent active_requests t : ℚ) : AlertConditions :=
  let cpuActive :=
    if cpu_percent_threshold < cpu_percent then
      [Alert.mk "high_cpu" cpu_percent cpu_percent_threshold]
    else []
  let cpuWarn :=
    if cpu_percent_threshold < cpu_percent then []
    else if cpu_percent_threshold * (8 / 10) < cpu_percent then
      [Alert.mk "cpu_warning" cpu_percent (cpu_percent_threshold * (8 / 10))]
    else []
  let memActive :=
    if memory_percent_threshold < memory_percent then
      [Alert.mk "high_memory" memory_percent memory_percent_threshold]
    else []
  let memWarn :=
    if memory_percent_threshold < memory_percent then []
    else if memory_percent_threshold * (8 / 10) < memory_percent then
      [Alert.mk "memory_warning" memory_percent (memory_percent_threshold * (8 / 10))]
    else []
  let errActive :=
    if error_rate_percent_threshold < error_rate_percent then
      [Alert.mk "high_error_rate" error_rate_percent error_rate_percent_threshold]
    else []
  let loadActive :=
    if active_requests_threshold < active_requests then
      [Alert.mk "high_load" active_requests active_requests_threshold]
    else []
  { active := cpuActive ++ memActive ++ errActive ++ loadActive
    warnings := cpuWarn ++ memWarn
    info := []
    timestamp := t }

/-! ### Auxiliary definitions used only in the statements and proofs -/

/-- The arguments of one `start_request` call. -/
structure StartCall where
  method : String
  path : String
  request_size : Option ℚ
  t : ℚ

/-- Run a sequence of `start_request` calls, discarding the returned ids. -/
def startAll (c : Collector) (calls : List StartCall) : Collector :=
  calls.foldl (fun s k => (start_request s k.method k.path k.request_size k.t).2) c

/-- Spec-side restatement of the status-class table, written from the
spec's words ("1xx"–"5xx" for 100–599 by hundreds, else "unknown") with a
different branch structure than the source, for comparison. -/
def statusClassSpec (c : Int) : String :=
  if c < 100 ∨ 600 ≤ c then "unknown"
  else if c ≤ 199 then "1xx"
  else if c ≤ 299 then "2xx"
  else if c ≤ 399 then "3xx"
  else if c ≤ 499 then "4xx"
  else "5xx"

/-- Spec-side restatement of the status-code-to-error-category table,
grouped by range first as the spec words it, for comparison. -/
def errorCategorySpec (c : Int) : String :=
  if 400 ≤ c ∧ c ≤ 499 then
    if c = 400 then "bad_request"
    else if c = 401 then "unauthorized"
    else if c = 403 then "forbidden"
    else if c = 404 then "not_found"
    else if c = 405 then "method_not_allowed"
    else if c = 422 then "validation_error"
    else if c = 429 then "rate_limited"
    else "client_error"
  else if 500 ≤ c ∧ c ≤ 599 then
    if c = 500 then "internal_server_error"
    else if c = 502 then "bad_gateway"
    else if c = 503 then "service_unavailable"
    else "server_error"
  else "unknown_error"

/-- A concrete run: two requests started and finished with status 500
before the observation window, then one request started inside the
window; both recorded errors predate the window. -/
def staleErrorsRun : Collector :=
  let s1 := start_request (initialCollector 7) "GET" "/a" none 0
  let c1 := finish_request s1.2 s1.1 "GET" "/a" 500 none none 1
  let s2 := start_request c1 "GET" "/a" none 2
  let c2 := finish_request s2.2 s2.1 "GET" "/a" 500 none none 3
  (start_request c2 "GET" "/a" none 350).2

/-- Reference decimal printer: most-significant digit first, one digit for
numbers below ten.  `Nat.repr` is proved equal to it below. -/
def natToChars (n : Nat) : List Char :=
  if n < 10 then [Nat.digitChar n]
  else natToChars (n / 10) ++ [Nat.digitChar (n % 10)]
termination_by n
decreasing_by exact Nat.div_lt_self (by omega) (by omega)

/-- Numeric value of an ASCII digit character. -/
def charVal (c : Char) : Nat := c.toNat - 48

/-- Read a most-significant-first digit string back into a number. -/
def unDigits (l : List Char) : Nat :=
  l.foldl (fun a c => 10 * a + charVal c) 0

/-- Characters that can occur in `toString (q : ℚ)`: ASCII digits, the
minus sign and the fraction slash. -/
def ratChar (c : Char) : Prop := ('0' ≤ c ∧ c ≤ '9') ∨ c = '-' ∨ c = '/'

/-! ## Theorems -/

/-- Claim C1: `finish_request` is a guarded no-op on unknown identifiers:
whenever the request id is not in the in-flight map, the entire collector
state is returned unchanged — no counter, gauge or histogram is touched,
the in-flight map and request history are unmodified, and the rate gauge
is not recomputed.  In particular a second finish with the same id after
a completed start/finish pair decrements the active gauge zero times. -/
theorem finish_request_unknown_id_noop (c : Collector)
    (request_id method path : String) (status_code : Int)
    (response_size : Option ℚ) (error_type : Option String) (t : ℚ)
    (h : lookupKey request_id c.active_requests = none) :
    finish_request c request_id method path status_code response_size error_type t = c := by
  unfold finish_request
  rw [h]

/-- Witness for C1 at a concrete state: the id "ghost" was never started
on a fresh collector, and finishing it changes nothing. -/
theorem finish_request_unknown_id_noop_witness :
    lookupKey "ghost" (initialCollector 0).active_requests = none ∧
    finish_request (initialCollector 0) "ghost" "GET" "/a" 500 none none 1 =
      initialCollector 0 :=
  ⟨rfl, finish_request_unknown_id_noop (initialCollector 0) "ghost" "GET" "/a" 500 none none 1 rfl⟩

set_option maxHeartbeats 1600000

/-- Claim C8: status classification is deterministic and total: the
status-class function agrees everywhere with the spec's by-hundreds table
("1xx".."5xx" on 100–599, "unknown" outside), and the error-category
function agrees everywhere with the spec's status-code table, falling
back to "unknown_error" outside 400–599. -/
theorem status_classification_total_table (c : Int) :
    get_status_class c = statusClassSpec c ∧
    classify_error_by_status c = errorCategorySpec c := by
  constructor
  · unfold get_status_class statusClassSpec
    split_ifs <;> first | rfl | omega
  · by_cases h4 : 400 ≤ c ∧ c < 500
    · unfold classify_error_by_status errorCategorySpec
      rw [if_pos (by omega : 400 ≤ c ∧ c ≤ 499)]
      split_ifs <;> first | rfl | omega
    · by_cases h5 : 500 ≤ c ∧ c < 600
      · unfold classify_error_by_status errorCategorySpec
        rw [if_neg (by omega : ¬(400 ≤ c ∧ c ≤ 499)),
          if_pos (by omega : 500 ≤ c ∧ c ≤ 599)]
        split_ifs <;> first | rfl | omega
      · unfold classify_error_by_status errorCategorySpec
        rw [if_neg (by omega : ¬(400 ≤ c ∧ c ≤ 499)),
          if_neg (by omega : ¬(500 ≤ c ∧ c ≤ 599))]
        split_ifs <;> first | rfl | omega

set_option maxHeartbeats 200000

/-- Claim C3: each health component is `max 0 (100 − value/threshold·100)`
with thresholds cpu 80, memory 85, error-rate 5, load 100; the overall
score is the mean of the four components rounded to two decimals; the
status bucket is ≥90 excellent / ≥75 good / ≥60 fair / ≥40 poor / else
critical; a component is 100 when its value is 0 and is clamped to 0
whenever its value reaches twice its threshold. -/
theorem health_score_components_and_buckets (cpu mem err load t : ℚ) :
    (cpu = 0 → (calculate_system_health_score cpu mem err load t).scores_cpu = 100) ∧
    (mem = 0 → (calculate_system_health_score cpu mem err load t).scores_memory = 100) ∧
    (err = 0 → (calculate_system_health_score cpu mem err load t).scores_error_rate = 100) ∧
    (load = 0 → (calculate_system_health_score cpu mem err load t).scores_load = 100) ∧
    (160 ≤ cpu → (calculate_system_health_score cpu mem err load t).scores_cpu = 0) ∧
    (170 ≤ mem → (calculate_system_health_score cpu mem err load t).scores_memory = 0) ∧
    (10 ≤ err → (calculate_system_health_score cpu mem err load t).scores_error_rate = 0) ∧
    (200 ≤ load → (calculate_system_health_score cpu mem err load t).scores_load = 0) ∧
    (calculate_system_health_score cpu mem err load t).scores_cpu =
      max 0 (100 - cpu / 80 * 100) ∧
    (calculate_system_health_score cpu mem err load t).scores_memory =
      max 0 (100 - mem / 85 * 100) ∧
    (calculate_system_health_score cpu mem err load t).scores_error_rate =
      max 0 (100 - err / 5 * 100) ∧
    (calculate_system_health_score cpu mem err load t).scores_load =
      max 0 (100 - load / 100 * 100) ∧
    (calculate_system_health_score cpu mem err load t).overall_score =
      round2 ((max 0 (100 - cpu / 80 * 100) + max 0 (100 - mem / 85 * 100) +
        max 0 (100 - err / 5 * 100) + max 0 (100 - load / 100 * 100)) / 4) ∧
    (calculate_system_health_score cpu mem err load t).status =
      (if 90 ≤ (max 0 (100 - cpu / 80 * 100) + max 0 (100 - mem / 85 * 100) +
          max 0 (100 - err / 5 * 100) + max 0 (100 - load / 100 * 100)) / 4 then "excellent"
        else if 75 ≤ (max 0 (100 - cpu / 80 * 100) + max 0 (100 - mem / 85 * 100) +
          max 0 (100 - err / 5 * 100) + max 0 (100 - load / 100 * 100)) / 4 then "good"
        else if 60 ≤ (max 0 (100 - cpu / 80 * 100) + max 0 (100 - mem / 85 * 100) +
          max 0 (100 - err / 5 * 100) + max 0 (100 - load / 100 * 100)) / 4 then "fair"
        else if 40 ≤ (max 0 (100 - cpu / 80 * 100) + max 0 (100 - mem / 85 * 100) +
          max 0 (100 - err / 5 * 100) + max 0 (100 - load / 100 * 100)) / 4 then "poor"
        else "critical") := by
  have hcpu : ∀ a b c : ℚ, (calculate_system_health_score a b c load t).scores_cpu =
      max 0 (100 - a / 80 * 100) := fun _ _ _ => rfl
  have hmem : ∀ a b c : ℚ, (calculate_system_health_score a b c load t).scores_memory =
      max 0 (100 - b / 85 * 100) := fun _ _ _ => rfl
  have herr : ∀ a b c : ℚ, (calculate_system_health_score a b c load t).scores_error_rate =
      max 0 (100 - c / 5 * 100) := fun _ _ _ => rfl
  have hload : ∀ a : ℚ, (calculate_system_health_score cpu mem err a t).scores_load =
      max 0 (100 - a / 100 * 100) := fun _ => rfl
  refine ⟨?_, ?_, ?_, ?_, ?_, ?_, ?_, ?_, hcpu cpu mem err, hmem cpu mem err,
    herr cpu mem err, hload load, rfl, rfl⟩
  · intro h; rw [hcpu, h]; norm_num
  · intro h; rw [hmem, h]; norm_num
  · intro h; rw [herr, h]; norm_num
  · intro h; rw [hload, h]; norm_num
  · intro h; rw [hcpu]; exact max_eq_left (by linarith)
  · intro h; rw [hmem]; exact max_eq_left (by linarith)
  · intro h; rw [herr]; exact max_eq_left (by linarith)
  · intro h; rw [hload]; exact max_eq_left (by linarith)

/-- Witness for C3 at concrete inputs: a zero cpu value scores 100, and a
cpu value at twice the threshold scores 0. -/
theorem health_score_components_and_buckets_witness :
    (calculate_system_health_score 0 0 0 0 0).scores_cpu = 100 ∧
    (calculate_system_health_score 160 0 0 0 0).scores_cpu = 0 :=
  ⟨(health_score_components_and_buckets 0 0 0 0 0).1 rfl,
   (health_score_components_and_buckets 160 0 0 0 0).2.2.2.2.1 (by norm_num)⟩

/-- Claim C4: over every window `w`, the request rate equals the count of
history entries newer than `now − w` divided by `w` (0 when `w ≤ 0`, and
0 when no entry is in the window since the count is then 0), and the
error rate equals lifetime errors divided by that windowed count times
100, returning 0 instead of faulting whenever the denominator is not
positive. -/
theorem window_rate_and_error_rate_guards (c : Collector) (t : ℚ) (w : Int) :
    (calculate_request_rate c t w =
      if 0 < w then
        (((c.request_history.filter (fun x => t - (w : ℚ) < x)).length : ℚ) / (w : ℚ))
      else 0) ∧
    (get_error_rate c t w =
      if 0 < w ∧ 0 < (c.request_history.filter (fun x => t - (w : ℚ) < x)).length then
        (sumCounter c.http_request_errors_total : ℚ) /
          ((c.request_history.filter (fun x => t - (w : ℚ) < x)).length : ℚ) * 100
      else 0) := by
  have hrate : calculate_request_rate c t w =
      if 0 < w then
        (((c.request_history.filter (fun x => t - (w : ℚ) < x)).length : ℚ) / (w : ℚ))
      else 0 := by
    rcases lt_or_le 0 w with hw | hw
    · rcases eq_or_ne (c.request_history.filter (fun x => t - (w : ℚ) < x)) [] with hnil | hnil
      · simp only [calculate_request_rate, hnil]
        simp [hw]
      · simp only [calculate_request_rate]
        rw [if_pos ⟨by simp [List.isEmpty_iff, hnil], hw⟩, if_pos hw]
    · simp only [calculate_request_rate]
      rw [if_neg (fun h => absurd h.2 (by omega)), if_neg (by omega : ¬ (0 : Int) < w)]
  refine ⟨hrate, ?_⟩
  simp only [get_error_rate]
  rw [hrate]
  rcases lt_or_le 0 w with hw | hw
  · rw [if_pos hw]
    rcases Nat.eq_zero_or_pos (c.request_history.filter (fun x => t - (w : ℚ) < x)).length
      with h0 | hpos
    · rw [h0]
      have hcond : ¬ (0 < w ∧
          0 < (c.request_history.filter (fun x => t - (w : ℚ) < x)).length) := by
        rw [h0]; rintro ⟨-, h⟩; omega
      simp [hcond]
    · have hwq : (w : ℚ) ≠ 0 := by
        have : (0 : ℚ) < (w : ℚ) := by exact_mod_cast hw
        exact ne_of_gt this
      have htot : (((c.request_history.filter (fun x => t - (w : ℚ) < x)).length : ℚ)
          / (w : ℚ)) * (w : ℚ) =
          ((c.request_history.filter (fun x => t - (w : ℚ) < x)).length : ℚ) :=
        div_mul_cancel₀ _ hwq
      have hposq : (0 : ℚ) <
          ((c.request_history.filter (fun x => t - (w : ℚ) < x)).length : ℚ) := by
        exact_mod_cast hpos
      rw [htot, if_pos hposq, if_pos ⟨hw, hpos⟩]
  · rw [if_neg (by omega : ¬ (0 : Int) < w)]
    have hcond : ¬ (0 < w ∧
        0 < (c.request_history.filter (fun x => t - (w : ℚ) < x)).length) := by
      rintro ⟨h, -⟩; omega
    simp [hcond]

theorem tail_append_singleton {α : Type} (l : List α) (x : α) (h : l ≠ []) :
    (l ++ [x]).tail = l.tail ++ [x] := by
  cases l with
  | nil => exact absurd rfl h
  | cons a as => rfl

/-- Folding the history push over any timestamp sequence keeps exactly the
most recent 1000 entries, in insertion order. -/
theorem foldl_pushHistory_drop (ts : List ℚ) :
    ts.foldl pushHistory [] = ts.drop (ts.length - 1000) := by
  induction ts using List.reverseRecOn with
  | nil => rfl
  | append_singleton xs x ih =>
    rw [List.foldl_append, List.foldl_cons, List.foldl_nil, ih]
    by_cases hlen : xs.length < 1000
    · have h1 : xs.length - 1000 = 0 := by omega
      have h2 : (xs ++ [x]).length - 1000 = 0 := by
        simp only [List.length_append, List.length_singleton]; omega
      rw [h1, h2, List.drop_zero, List.drop_zero]
      simp only [pushHistory]
      rw [if_neg (by simp only [List.length_append, List.length_singleton]; omega)]
    · have hd : (xs.drop (xs.length - 1000)).length = 1000 := by
        rw [List.length_drop]; omega
      have hne : xs.drop (xs.length - 1000) ≠ [] := by
        intro hc; rw [hc] at hd; simp at hd
      simp only [pushHistory]
      rw [if_pos (by simp only [List.length_append, List.length_singleton, hd]; omega)]
      rw [tail_append_singleton _ _ hne, List.tail_drop]
      simp only [List.length_append, List.length_singleton]
      rw [List.drop_append_of_le_length (by omega : xs.length + 1 - 1000 ≤ xs.length)]
      have h3 : xs.length - 1000 + 1 = xs.length + 1 - 1000 := by omega
      rw [h3]

/-- `start_request` changes the request history by exactly one push. -/
theorem start_request_history (c : Collector) (m p : String) (sz : Option ℚ) (t : ℚ) :
    (start_request c m p sz t).2.request_history = pushHistory c.request_history t := by
  cases sz <;> rfl

/-- The history after a sequence of starts is the fold of the pushes. -/
theorem startAll_history (calls : List StartCall) : ∀ c : Collector,
    (startAll c calls).request_history =
      (calls.map StartCall.t).foldl pushHistory c.request_history := by
  induction calls with
  | nil => intro c; rfl
  | cons k ks ih =>
    intro c
    have hstep := ih ((start_request c k.method k.path k.request_size k.t).2)
    simp only [startAll, List.foldl_cons, List.map_cons] at hstep ⊢
    rw [hstep, start_request_history]

/-- Claim C2: after any sequence of `start_request` calls on a fresh
collector the request history holds at most 1000 timestamps, and it is
exactly the most recent 1000 start timestamps in insertion order (for
1500 starts, the earliest 500 are dropped). -/
theorem request_history_window_bounded (selfId : Nat) (calls : List StartCall) :
    (startAll (initialCollector selfId) calls).request_history =
      (calls.map StartCall.t).drop (calls.length - 1000) ∧
    (startAll (initialCollector selfId) calls).request_history.length ≤ 1000 := by
  have h := startAll_history calls (initialCollector selfId)
  have h2 : (initialCollector selfId).request_history = ([] : List ℚ) := rfl
  rw [h2, foldl_pushHistory_drop, List.length_map] at h
  constructor
  · exact h
  · rw [h, List.length_drop, List.length_map]; omega

theorem mem_iteSingleton {p : Prop} [Decidable p] {a b : Alert} :
    (a ∈ if p then [b] else []) ↔ (p ∧ a = b) := by
  split_ifs with h <;> simp [h]

theorem mem_iteElifSingleton {p q : Prop} [Decidable p] [Decidable q] {a b : Alert} :
    (a ∈ if p then [] else if q then [b] else []) ↔ (¬p ∧ q ∧ a = b) := by
  split_ifs with h1 h2
  · simp [h1]
  · simp [h1, h2]
  · simp [h1, h2]

/-- Claim C5: cpu and memory raise an active alert exactly when the value
exceeds its threshold and otherwise a warning exactly when it exceeds 0.8
of the threshold; error rate and load raise an active alert exactly when
the value exceeds its threshold and never warn; the info bucket is always
empty. -/
theorem alert_conditions_characterization (cpu mem err act t : ℚ) :
    (Alert.mk "high_cpu" cpu 80 ∈ (get_alert_conditions cpu mem err act t).active ↔
      80 < cpu) ∧
    (Alert.mk "cpu_warning" cpu 64 ∈ (get_alert_conditions cpu mem err act t).warnings ↔
      (cpu ≤ 80 ∧ 64 < cpu)) ∧
    (Alert.mk "high_memory" mem 85 ∈ (get_alert_conditions cpu mem err act t).active ↔
      85 < mem) ∧
    (Alert.mk "memory_warning" mem 68 ∈ (get_alert_conditions cpu mem err act t).warnings ↔
      (mem ≤ 85 ∧ 68 < mem)) ∧
    (Alert.mk "high_error_rate" err 5 ∈ (get_alert_conditions cpu mem err act t).active ↔
      5 < err) ∧
    (Alert.mk "high_load" act 100 ∈ (get_alert_conditions cpu mem err act t).active ↔
      100 < act) ∧
    (∀ a ∈ (get_alert_conditions cpu mem err act t).warnings,
      a.type_ = "cpu_warning" ∨ a.type_ = "memory_warning") ∧
    (get_alert_conditions cpu mem err act t).info = [] := by
  have h64 : (80 : ℚ) * (8 / 10) = (64 : ℚ) := by norm_num
  have h68 : (85 : ℚ) * (8 / 10) = (68 : ℚ) := by norm_num
  simp only [get_alert_conditions, h64, h68, cpu_percent_threshold, memory_percent_threshold,
    error_rate_percent_threshold, active_requests_threshold, List.mem_append,
    mem_iteSingleton, mem_iteElifSingleton, Alert.mk.injEq]
  refine ⟨?_, ?_, ?_, ?_, ?_, ?_, ?_, trivial⟩
  · simp +decide [not_lt]
  · simp +decide [not_lt]
  · simp +decide [not_lt]
  · simp +decide [not_lt]
  · simp +decide [not_lt]
  · simp +decide [not_lt]
  · rintro a (⟨-, -, rfl⟩ | ⟨-, -, rfl⟩)
    · left; rfl
    · right; rfl

theorem splitChar_ne_nil (sep : Char) (s : List Char) : splitChar sep s ≠ [] := by
  induction s with
  | nil => simp [splitChar]
  | cons c cs ih =>
    simp only [splitChar]
    split_ifs
    · simp
    · cases h : splitChar sep cs <;> simp

/-- No field produced by a split contains the separator. -/
theorem mem_splitChar_not_sep (sep : Char) (s : List Char) :
    ∀ part ∈ splitChar sep s, sep ∉ part := by
  induction s with
  | nil =>
    intro part hp
    simp [splitChar] at hp
    simp [hp]
  | cons c cs ih =>
    intro part hp
    simp only [splitChar] at hp
    by_cases hc : c = sep
    · rw [if_pos hc] at hp
      rcases List.mem_cons.mp hp with h | h
      · simp [h]
      · exact ih part h
    · rw [if_neg hc] at hp
      cases hsp : splitChar sep cs with
      | nil => exact absurd hsp (splitChar_ne_nil sep cs)
      | cons s0 ss =>
        rw [hsp] at hp
        rcases List.mem_cons.mp hp with h | h
        · subst h
          intro hmem
          rcases List.mem_cons.mp hmem with h1 | h1
          · exact hc h1.symm
          · exact ih s0 (hsp ▸ List.mem_cons_self s0 ss) h1
        · exact ih part (hsp ▸ List.mem_cons_of_mem s0 h)

/-- Every character of a split field is a character of the input. -/
theorem mem_splitChar_subset (sep : Char) (s : List Char) :
    ∀ part ∈ splitChar sep s, ∀ c2 ∈ part, c2 ∈ s := by
  induction s with
  | nil =>
    intro part hp c2 hc
    simp [splitChar] at hp
    rw [hp] at hc
    simp at hc
  | cons c cs ih =>
    intro part hp c2 hc2
    simp only [splitChar] at hp
    by_cases hc : c = sep
    · rw [if_pos hc] at hp
      rcases List.mem_cons.mp hp with h | h
      · rw [h] at hc2; simp at hc2
      · exact List.mem_cons_of_mem c (ih part h c2 hc2)
    · rw [if_neg hc] at hp
      cases hsp : splitChar sep cs with
      | nil => exact absurd hsp (splitChar_ne_nil sep cs)
      | cons s0 ss =>
        rw [hsp] at hp
        rcases List.mem_cons.mp hp with h | h
        · subst h
          rcases List.mem_cons.mp hc2 with h1 | h1
          · rw [h1]; exact List.mem_cons_self c cs
          · exact List.mem_cons_of_mem c (ih s0 (hsp ▸ List.mem_cons_self s0 ss) c2 h1)
        · exact List.mem_cons_of_mem c (ih part (hsp ▸ List.mem_cons_of_mem s0 h) c2 hc2)

/-- Splitting a string that does not contain the separator is trivial. -/
theorem splitChar_no_sep (sep : Char) (p : List Char) (h : sep ∉ p) :
    splitChar sep p = [p] := by
  induction p with
  | nil => rfl
  | cons c cs ih =>
    simp only [splitChar]
    rw [if_neg (fun hc => h (by rw [← hc]; exact List.mem_cons_self c cs))]
    rw [ih (fun hm => h (List.mem_cons_of_mem c hm))]

/-- Splitting past a leading separator-free block peels off one field. -/
theorem splitChar_append_sep (sep : Char) (p r : List Char) (h : sep ∉ p) :
    splitChar sep (p ++ sep :: r) = p :: splitChar sep r := by
  induction p with
  | nil => simp [splitChar]
  | cons c cs ih =>
    have hrw : splitChar sep ((c :: cs) ++ sep :: r) =
        if c = sep then [] :: splitChar sep (cs ++ sep :: r)
        else
          match splitChar sep (cs ++ sep :: r) with
          | [] => [[c]]
          | s :: ss => (c :: s) :: ss := rfl
    rw [hrw, if_neg (fun hc => h (by rw [← hc]; exact List.mem_cons_self c cs))]
    rw [ih (fun hm => h (List.mem_cons_of_mem c hm))]

/-- Splitting a join recovers the parts when none contains the separator. -/
theorem splitChar_joinChar (sep : Char) (parts : List (List Char))
    (hne : parts ≠ []) (h : ∀ part ∈ parts, sep ∉ part) :
    splitChar sep (joinChar sep parts) = parts := by
  induction parts with
  | nil => exact absurd rfl hne
  | cons p ps ih =>
    cases ps with
    | nil => exact splitChar_no_sep sep p (h p (List.mem_cons_self p []))
    | cons q ps2 =>
      have hjoin : joinChar sep (p :: q :: ps2) = p ++ sep :: joinChar sep (q :: ps2) := rfl
      rw [hjoin, splitChar_append_sep sep p _ (h p (List.mem_cons_self p (q :: ps2)))]
      rw [ih (by simp) (fun part hp => h part (List.mem_cons_of_mem p hp))]

/-- Joining a split is the identity. -/
theorem joinChar_splitChar (sep : Char) (s : List Char) :
    joinChar sep (splitChar sep s) = s := by
  induction s with
  | nil => rfl
  | cons c cs ih =>
    simp only [splitChar]
    by_cases hc : c = sep
    · rw [if_pos hc]
      cases hsp : splitChar sep cs with
      | nil => exact absurd hsp (splitChar_ne_nil sep cs)
      | cons s0 ss =>
        have hj : joinChar sep ([] :: s0 :: ss) = sep :: joinChar sep (s0 :: ss) := rfl
        rw [hsp] at ih
        rw [hj, ih, hc]
    · rw [if_neg hc]
      cases hsp : splitChar sep cs with
      | nil => exact absurd hsp (splitChar_ne_nil sep cs)
      | cons s0 ss =>
        rw [hsp] at ih
        cases ss with
        | nil =>
          have : joinChar sep [s0] = s0 := rfl
          rw [this] at ih
          show c :: s0 = c :: cs
          rw [ih]
        | cons s1 ss2 =>
          have h1 : joinChar sep ((c :: s0) :: s1 :: ss2) =
              (c :: s0) ++ sep :: joinChar sep (s1 :: ss2) := rfl
          have h2 : joinChar sep (s0 :: s1 :: ss2) =
              s0 ++ sep :: joinChar sep (s1 :: ss2) := rfl
          rw [h2] at ih
          rw [h1, List.cons_append, ih]

/-- Characters of a join are separators or characters of the parts. -/
theorem mem_joinChar (sep : Char) (parts : List (List Char)) (c : Char)
    (h : c ∈ joinChar sep parts) : c = sep ∨ ∃ part ∈ parts, c ∈ part := by
  induction parts with
  | nil => simp [joinChar] at h
  | cons p ps ih =>
    cases ps with
    | nil => exact Or.inr ⟨p, List.mem_cons_self p [], h⟩
    | cons q ps2 =>
      have hjoin : joinChar sep (p :: q :: ps2) = p ++ sep :: joinChar sep (q :: ps2) := rfl
      rw [hjoin] at h
      rcases List.mem_append.mp h with h1 | h1
      · exact Or.inr ⟨p, List.mem_cons_self p (q :: ps2), h1⟩
      · rcases List.mem_cons.mp h1 with h2 | h2
        · exact Or.inl h2
        · rcases ih h2 with h3 | ⟨part, hp, hcp⟩
          · exact Or.inl h3
          · exact Or.inr ⟨part, List.mem_cons_of_mem p hp, hcp⟩

/-- The query-stripped path contains no question mark. -/
theorem stripQuery_no_query (path : List Char) : '?' ∉ stripQuery path := by
  unfold stripQuery
  split_ifs with h
  · cases hsp : splitChar '?' path with
    | nil => exact absurd hsp (splitChar_ne_nil '?' path)
    | cons s0 ss =>
      exact mem_splitChar_not_sep '?' path s0 (hsp ▸ List.mem_cons_self s0 ss)
  · exact h

/-- Stripping is the identity on paths without a question mark. -/
theorem stripQuery_of_no_query (s : List Char) (h : '?' ∉ s) : stripQuery s = s := by
  unfold stripQuery
  rw [if_neg h]

/-- The brace-preserving branch of the source collapses: a segment is
either replaced by the placeholder or kept verbatim. -/
theorem normalizeSegment_eq (part : List Char) :
    normalizeSegment part = if pyIsDigit part then idPlaceholder else part := by
  unfold normalizeSegment
  split_ifs <;> rfl

theorem normalizeSegment_idem (part : List Char) :
    normalizeSegment (normalizeSegment part) = normalizeSegment part := by
  by_cases h : pyIsDigit part
  · have h1 : normalizeSegment part = idPlaceholder := by
      rw [normalizeSegment_eq, if_pos h]
    rw [h1, normalizeSegment_eq, if_neg (by decide : ¬ pyIsDigit idPlaceholder = true)]
  · have h1 : normalizeSegment part = part := by
      rw [normalizeSegment_eq, if_neg h]
    rw [h1, h1]

theorem mem_normalizeSegment (part : List Char) (c : Char)
    (h : c ∈ normalizeSegment part) : c ∈ part ∨ c ∈ idPlaceholder := by
  rw [normalizeSegment_eq] at h
  split_ifs at h
  · exact Or.inr h
  · exact Or.inl h

theorem map_eq_self {α : Type} (f : α → α) :
    ∀ l : List α, (∀ a ∈ l, f a = a) → l.map f = l
  | [], _ => rfl
  | a :: as, h => by
    rw [List.map_cons, h a (List.mem_cons_self a as),
      map_eq_self f as (fun x hx => h x (List.mem_cons_of_mem a hx))]

/-- Character-level idempotence of endpoint normalization. -/
theorem normalizeChars_idem (p : List Char) :
    normalizeChars (normalizeChars p) = normalizeChars p := by
  have hparts : ∀ part ∈ (splitChar '/' (stripQuery p)).map normalizeSegment,
      '/' ∉ part := by
    intro part hp hmem
    rcases List.mem_map.mp hp with ⟨part0, hp0, rfl⟩
    rcases mem_normalizeSegment part0 '/' hmem with h1 | h1
    · exact mem_splitChar_not_sep '/' (stripQuery p) part0 hp0 h1
    · exact absurd h1 (by decide)
  have hq : '?' ∉ normalizeChars p := by
    intro hmem
    rcases mem_joinChar '/' ((splitChar '/' (stripQuery p)).map normalizeSegment) '?' hmem
      with h | ⟨part, hp, hc⟩
    · exact absurd h (by decide)
    · rcases List.mem_map.mp hp with ⟨part0, hp0, rfl⟩
      rcases mem_normalizeSegment part0 '?' hc with h1 | h1
      · exact stripQuery_no_query p (mem_splitChar_subset '/' (stripQuery p) part0 hp0 '?' h1)
      · exact absurd h1 (by decide)
  have step1 : stripQuery (normalizeChars p) = normalizeChars p :=
    stripQuery_of_no_query _ hq
  have step2 : splitChar '/' (normalizeChars p) =
      (splitChar '/' (stripQuery p)).map normalizeSegment :=
    splitChar_joinChar '/' ((splitChar '/' (stripQuery p)).map normalizeSegment)
      (fun hnil => splitChar_ne_nil '/' (stripQuery p) (List.map_eq_nil_iff.mp hnil)) hparts
  show joinChar '/'
      ((splitChar '/' (stripQuery (normalizeChars p))).map normalizeSegment) =
    normalizeChars p
  rw [step1, step2, List.map_map]
  have hcomp : normalizeSegment ∘ normalizeSegment = normalizeSegment :=
    funext normalizeSegment_idem
  rw [hcomp]
  rfl

/-- Claim C6: endpoint normalization is idempotent: for every path,
normalizing twice gives the same label as normalizing once. -/
theorem normalize_endpoint_idempotent (p : String) :
    normalize_endpoint (normalize_endpoint p) = normalize_endpoint p :=
  congrArg String.mk (normalizeChars_idem p.data)

/-- Claim C7: normalization is a total function that strips the text
after the first question mark, splits on slashes, replaces each all-digit
segment by the placeholder, keeps every other segment (brace-wrapped or
empty included) unchanged, and rejoins with slashes; for a path with no
digit-only segment it is the identity modulo query stripping. -/
theorem normalize_endpoint_characterization (p : String) :
    (∀ part, normalizeSegment part = if pyIsDigit part then idPlaceholder else part) ∧
    normalize_endpoint p =
      String.mk (joinChar '/' ((splitChar '/' (stripQuery p.data)).map normalizeSegment)) ∧
    ((∀ part ∈ splitChar '/' (stripQuery p.data), pyIsDigit part = false) →
      normalize_endpoint p = String.mk (stripQuery p.data)) := by
  refine ⟨normalizeSegment_eq, rfl, ?_⟩
  intro h
  have hmapid : (splitChar '/' (stripQuery p.data)).map normalizeSegment =
      splitChar '/' (stripQuery p.data) :=
    map_eq_self normalizeSegment (splitChar '/' (stripQuery p.data)) (fun part hp => by
      rw [normalizeSegment_eq, if_neg (by simp [h part hp])])
  show String.mk (joinChar '/' ((splitChar '/' (stripQuery p.data)).map normalizeSegment)) =
    String.mk (stripQuery p.data)
  rw [hmapid, joinChar_splitChar]

/-- Witness for C7: a concrete path with a query string and no digit-only
segment normalizes to the query-stripped path itself. -/
theorem normalize_endpoint_characterization_witness :
    (∀ part ∈ splitChar '/' (stripQuery "/api/users?x=1".data), pyIsDigit part = false) ∧
    normalize_endpoint "/api/users?x=1" = String.mk (stripQuery "/api/users?x=1".data) :=
  ⟨by decide, (normalize_endpoint_characterization "/api/users?x=1").2.2 (by decide)⟩

/-- Witness for C5: the claim's example scenario: cpu 85 (threshold 80)
raises an active high_cpu alert; cpu 65 (above 0.8·80 = 64) raises a
warning. -/
theorem alert_conditions_characterization_witness :
    Alert.mk "high_cpu" 85 80 ∈ (get_alert_conditions 85 0 0 0 0).active ∧
    Alert.mk "cpu_warning" 65 64 ∈ (get_alert_conditions 65 0 0 0 0).warnings :=
  ⟨(alert_conditions_characterization 85 0 0 0 0).1.mpr (by norm_num),
   (alert_conditions_characterization 65 0 0 0 0).2.1.mpr (by norm_num)⟩

/-- Claim C10: the numerator of `get_error_rate` is the lifetime error
total over all label combinations while the denominator counts only the
starts inside the window; on a run where both recorded errors predate the
window and a single start falls inside it, the reported error rate is 200
percent — strictly greater than 100. -/
theorem stale_errors_exceed_100_percent :
    get_error_rate staleErrorsRun 400 300 = 200 ∧
    sumCounter staleErrorsRun.http_request_errors_total = 2 ∧
    staleErrorsRun.request_history = [0, 2, 350] := by
  have hhist : staleErrorsRun.request_history = [0, 2, 350] := by
    norm_num [staleErrorsRun, initialCollector, start_request, finish_request,
      update_request_rate, lookupKey, dictInsert, removeKey, incCounter, pushHistory, truthy]
  have herr : sumCounter staleErrorsRun.http_request_errors_total = 2 := by
    norm_num [staleErrorsRun, initialCollector, start_request, finish_request,
      update_request_rate, lookupKey, dictInsert, removeKey, incCounter, pushHistory, truthy,
      sumCounter]
  refine ⟨?_, herr, hhist⟩
  simp only [get_error_rate, calculate_request_rate, hhist, herr]
  norm_num [List.filter_cons, List.filter_nil]

/-! ### Decimal printing: `Nat.repr` is injective

`mkRequestId` embeds the clock reading and the instance discriminator
through `toString`; the lemmas below prove that printing is injective, so
distinct clock readings give distinct request ids. -/

theorem charVal_digitChar (d : Nat) (h : d < 10) :
    charVal (Nat.digitChar d) = d := by
  interval_cases d <;> decide

theorem digitChar_digit (d : Nat) (h : d < 10) :
    '0' ≤ Nat.digitChar d ∧ Nat.digitChar d ≤ '9' := by
  interval_cases d <;> decide

theorem natToChars_ne_nil (n : Nat) : natToChars n ≠ [] := by
  rw [natToChars]
  split_ifs <;> simp

theorem mem_natToChars_digit (n : Nat) :
    ∀ c ∈ natToChars n, '0' ≤ c ∧ c ≤ '9' := by
  induction n using Nat.strong_induction_on with
  | _ n ih =>
    intro c hc
    rw [natToChars] at hc
    split_ifs at hc with h
    · rw [List.mem_singleton.mp hc]
      exact digitChar_digit n h
    · rcases List.mem_append.mp hc with h1 | h1
      · exact ih (n / 10) (Nat.div_lt_self (by omega) (by omega)) c h1
      · rw [List.mem_singleton.mp h1]
        exact digitChar_digit (n % 10) (Nat.mod_lt n (by omega))

theorem unDigits_natToChars (n : Nat) : unDigits (natToChars n) = n := by
  induction n using Nat.strong_induction_on with
  | _ n ih =>
    rw [natToChars]
    split_ifs with h
    · show 10 * 0 + charVal (Nat.digitChar n) = n
      rw [charVal_digitChar n h]
      omega
    · show (natToChars (n / 10) ++ [Nat.digitChar (n % 10)]).foldl
        (fun a c => 10 * a + charVal c) 0 = n
      rw [List.foldl_append]
      have h1 : (natToChars (n / 10)).foldl (fun a c => 10 * a + charVal c) 0 = n / 10 :=
        ih (n / 10) (Nat.div_lt_self (by omega) (by omega))
      rw [h1]
      show 10 * (n / 10) + charVal (Nat.digitChar (n % 10)) = n
      rw [charVal_digitChar (n % 10) (Nat.mod_lt n (by omega))]
      omega

theorem natToChars_injective (a b : Nat) (h : natToChars a = natToChars b) : a = b := by
  rw [← unDigits_natToChars a, ← unDigits_natToChars b, h]

theorem toDigitsCore_eq (f : Nat) : ∀ (n : Nat) (ds : List Char), n < f →
    Nat.toDigitsCore 10 f n ds = natToChars n ++ ds := by
  induction f with
  | zero => intro n ds h; omega
  | succ f ih =>
    intro n ds h
    have hrw : Nat.toDigitsCore 10 (f + 1) n ds =
        if n / 10 = 0 then Nat.digitChar (n % 10) :: ds
        else Nat.toDigitsCore 10 f (n / 10) (Nat.digitChar (n % 10) :: ds) := rfl
    rw [hrw]
    split_ifs with hz
    · rw [natToChars, if_pos (by omega : n < 10), Nat.mod_eq_of_lt (by omega : n < 10)]
      rfl
    · have hN : natToChars n = natToChars (n / 10) ++ [Nat.digitChar (n % 10)] := by
        rw [natToChars]
        rw [if_neg (by omega : ¬ n < 10)]
      rw [ih (n / 10) (Nat.digitChar (n % 10) :: ds) (by omega), hN, List.append_assoc]
      rfl

theorem nat_repr_eq (n : Nat) : Nat.repr n = String.mk (natToChars n) := by
  show (Nat.toDigits 10 n).asString = String.mk (natToChars n)
  rw [show Nat.toDigits 10 n = Nat.toDigitsCore 10 (n + 1) n [] from rfl,
    toDigitsCore_eq (n + 1) n [] (by omega), List.append_nil]
  rfl

theorem nat_repr_injective (a b : Nat) (h : Nat.repr a = Nat.repr b) : a = b := by
  rw [nat_repr_eq, nat_repr_eq] at h
  exact natToChars_injective a b (congrArg String.data h)

theorem mem_nat_repr_digit (n : Nat) :
    ∀ c ∈ (Nat.repr n).data, '0' ≤ c ∧ c ≤ '9' := by
  rw [nat_repr_eq]
  exact mem_natToChars_digit n

theorem int_toString_injective (a b : Int) (h : toString a = toString b) : a = b := by
  cases a with
  | ofNat m =>
    cases b with
    | ofNat k => exact congrArg Int.ofNat (nat_repr_injective m k h)
    | negSucc k =>
      exfalso
      have h2 : Nat.repr m = "-" ++ Nat.repr (k + 1) := h
      have hd : (Nat.repr m).data = '-' :: (Nat.repr (k + 1)).data := congrArg String.data h2
      have hm : '-' ∈ (Nat.repr m).data := by rw [hd]; exact List.mem_cons_self _ _
      exact absurd (mem_nat_repr_digit m '-' hm) (by decide)
  | negSucc m =>
    cases b with
    | ofNat k =>
      exfalso
      have h2 : "-" ++ Nat.repr (m + 1) = Nat.repr k := h
      have hd : '-' :: (Nat.repr (m + 1)).data = (Nat.repr k).data := congrArg String.data h2
      have hm : '-' ∈ (Nat.repr k).data := by rw [← hd]; exact List.mem_cons_self _ _
      exact absurd (mem_nat_repr_digit k '-' hm) (by decide)
    | negSucc k =>
      have h2 : "-" ++ Nat.repr (m + 1) = "-" ++ Nat.repr (k + 1) := h
      have hd : '-' :: (Nat.repr (m + 1)).data = '-' :: (Nat.repr (k + 1)).data :=
        congrArg String.data h2
      have hdd : (Nat.repr (m + 1)).data = (Nat.repr (k + 1)).data := by
        injection hd
      have hmk := nat_repr_injective (m + 1) (k + 1) (String.ext hdd)
      have hmk2 : m = k := by omega
      rw [hmk2]

theorem mem_int_toString (i : Int) :
    ∀ c ∈ (toString i).data, ('0' ≤ c ∧ c ≤ '9') ∨ c = '-' := by
  cases i with
  | ofNat m =>
    intro c hc
    exact Or.inl (mem_nat_repr_digit m c hc)
  | negSucc m =>
    intro c hc
    have hd : (toString (Int.negSucc m)).data = '-' :: (Nat.repr (m + 1)).data := rfl
    rw [hd] at hc
    rcases List.mem_cons.mp hc with h1 | h1
    · exact Or.inr h1
    · exact Or.inl (mem_nat_repr_digit (m + 1) c h1)

/-- The `ToString ℚ` instance unfolded (the Batteries definition). -/
theorem rat_toString_def (q : ℚ) : toString q =
    if q.den = 1 then toString q.num
    else "" ++ toString q.num ++ "/" ++ toString q.den ++ "" := rfl

theorem rat_toString_data_of_den_ne_one (q : ℚ) (h : q.den ≠ 1) :
    (toString q).data = (toString q.num).data ++ '/' :: (Nat.repr q.den).data := by
  rw [rat_toString_def, if_neg h]
  show ([] : List Char) ++ (toString q.num).data ++ ['/'] ++ (Nat.repr q.den).data ++ [] =
    (toString q.num).data ++ '/' :: (Nat.repr q.den).data
  simp

theorem mem_rat_toString (q : ℚ) : ∀ c ∈ (toString q).data, ratChar c := by
  intro c hc
  rw [rat_toString_def] at hc
  split_ifs at hc with h
  · rcases mem_int_toString q.num c hc with h1 | h1
    · exact Or.inl h1
    · exact Or.inr (Or.inl h1)
  · have hd : ("" ++ toString q.num ++ "/" ++ toString q.den ++ "").data =
        (toString q.num).data ++ '/' :: (Nat.repr q.den).data := by
      show ([] : List Char) ++ (toString q.num).data ++ ['/'] ++ (Nat.repr q.den).data ++ [] =
        (toString q.num).data ++ '/' :: (Nat.repr q.den).data
      simp
    rw [hd] at hc
    rcases List.mem_append.mp hc with h1 | h1
    · rcases mem_int_toString q.num c h1 with h2 | h2
      · exact Or.inl h2
      · exact Or.inr (Or.inl h2)
    · rcases List.mem_cons.mp h1 with h2 | h2
      · exact Or.inr (Or.inr h2)
      · exact Or.inl (mem_nat_repr_digit q.den c h2)

theorem int_toString_no_slash (i : Int) : '/' ∉ (toString i).data := fun hm => by
  rcases mem_int_toString i '/' hm with h1 | h1
  · exact absurd h1 (by decide)
  · exact absurd h1 (by decide)

theorem rat_toString_no_underscore (q : ℚ) : '_' ∉ (toString q).data := fun hm => by
  rcases mem_rat_toString q '_' hm with h1 | h1 | h1
  · exact absurd h1 (by decide)
  · exact absurd h1 (by decide)
  · exact absurd h1 (by decide)

/-- Splitting at a separator absent from both prefixes is injective. -/
theorem append_sep_inj {α : Type} (sep : α) (a1 : List α) :
    ∀ a2 b1 b2 : List α, sep ∉ a1 → sep ∉ a2 →
      a1 ++ sep :: b1 = a2 ++ sep :: b2 → a1 = a2 ∧ b1 = b2 := by
  induction a1 with
  | nil =>
    intro a2 b1 b2 h1 h2 h
    cases a2 with
    | nil =>
      refine ⟨rfl, ?_⟩
      injection h
    | cons y a2 =>
      exfalso
      injection h with h3 _
      exact h2 (by rw [h3]; exact List.mem_cons_self y a2)
  | cons x a1 ih =>
    intro a2 b1 b2 h1 h2 h
    cases a2 with
    | nil =>
      exfalso
      injection h with h3 _
      exact h1 (by rw [← h3]; exact List.mem_cons_self x a1)
    | cons y a2 =>
      injection h with h3 h4
      have hrec := ih a2 b1 b2 (fun hm => h1 (List.mem_cons_of_mem x hm))
        (fun hm => h2 (List.mem_cons_of_mem y hm)) h4
      exact ⟨by rw [h3, hrec.1], hrec.2⟩

theorem rat_toString_injective (q r : ℚ) (h : toString q = toString r) : q = r := by
  by_cases hq : q.den = 1
  · by_cases hr : r.den = 1
    · have h2 : toString q.num = toString r.num := by
        rw [rat_toString_def q, rat_toString_def r, if_pos hq, if_pos hr] at h
        exact h
      exact Rat.ext (int_toString_injective q.num r.num h2) (by rw [hq, hr])
    · exfalso
      have hd := congrArg String.data h
      rw [rat_toString_data_of_den_ne_one r hr] at hd
      have hq2 : (toString q).data = (toString q.num).data := by
        rw [rat_toString_def q, if_pos hq]
      rw [hq2] at hd
      have hmem : '/' ∈ (toString q.num).data := by
        rw [hd]
        exact List.mem_append.mpr (Or.inr (List.mem_cons_self _ _))
      exact int_toString_no_slash q.num hmem
  · by_cases hr : r.den = 1
    · exfalso
      have hd := congrArg String.data h
      rw [rat_toString_data_of_den_ne_one q hq] at hd
      have hr2 : (toString r).data = (toString r.num).data := by
        rw [rat_toString_def r, if_pos hr]
      rw [hr2] at hd
      have hmem : '/' ∈ (toString r.num).data := by
        rw [← hd]
        exact List.mem_append.mpr (Or.inr (List.mem_cons_self _ _))
      exact int_toString_no_slash r.num hmem
    · have hd := congrArg String.data h
      rw [rat_toString_data_of_den_ne_one q hq, rat_toString_data_of_den_ne_one r hr] at hd
      have hsplit := append_sep_inj '/' (toString q.num).data (toString r.num).data
        (Nat.repr q.den).data (Nat.repr r.den).data
        (int_toString_no_slash q.num) (int_toString_no_slash r.num) hd
      exact Rat.ext (int_toString_injective q.num r.num (String.ext hsplit.1))
        (nat_repr_injective q.den r.den (String.ext hsplit.2))

/-- The request-id string determines the clock reading: ids built from the
same method, path and discriminator but different clock readings differ. -/
theorem mkRequestId_inj_time (m p : String) (s : Nat) (t1 t2 : ℚ)
    (h : mkRequestId m p t1 s = mkRequestId m p t2 s) : t1 = t2 := by
  have hshape : ∀ t : ℚ, (mkRequestId m p t s).data =
      m.data ++ ('_' :: (p.data ++ ('_' :: ((toString t).data ++
        ('_' :: (toString s).data))))) := by
    intro t
    show (((((m.data ++ ['_']) ++ p.data) ++ ['_']) ++ (toString t).data) ++ ['_'])
        ++ (toString s).data = _
    simp [List.append_assoc]
  have hd := congrArg String.data h
  rw [hshape t1, hshape t2] at hd
  have h1 := List.append_cancel_left hd
  injection h1 with _ h2
  have h3 := List.append_cancel_left h2
  injection h3 with _ h4
  have h5 := append_sep_inj '_' (toString t1).data (toString t2).data (toString s).data
    (toString s).data (rat_toString_no_underscore t1) (rat_toString_no_underscore t2) h4
  exact rat_toString_injective t1 t2 (String.ext h5.1)

/-- Claim C9 counterexample: the request id is a function of method, path,
clock reading and collector discriminator only; two successive start
calls (the second on the collector state left by the first) that observe
the same clock reading return the identical id, so distinctness of the
calls alone does not make the ids distinct. -/
theorem request_id_collision_on_equal_clock :
    (start_request (start_request (initialCollector 7) "GET" "/a" none 5).2
        "GET" "/a" none 5).1 =
      (start_request (initialCollector 7) "GET" "/a" none 5).1 := rfl

/-- Claim C9 amended: request ids are unique whenever the clock readings
of the two start calls differ: for the same method, path and collector,
distinct wall-clock readings give distinct identifiers (equality of the
readings is the only way two ids from one collector coincide). -/
theorem request_id_distinct_for_distinct_clock (c : Collector) (m p : String)
    (sz1 sz2 : Option ℚ) (t1 t2 : ℚ) (h : t1 ≠ t2) :
    (start_request c m p sz1 t1).1 ≠ (start_request c m p sz2 t2).1 := by
  intro hc
  exact h (mkRequestId_inj_time m p c.selfId t1 t2 hc)

/-- Witness for the amended C9 at concrete inputs: clock readings 5 and 6
give different request ids on a fresh collector. -/
theorem request_id_distinct_for_distinct_clock_witness :
    (5 : ℚ) ≠ 6 ∧
    (start_request (initialCollector 7) "GET" "/a" none 5).1 ≠
      (start_request (initialCollector 7) "GET" "/a" none 6).1 :=
  ⟨by norm_num, request_id_distinct_for_distinct_clock (initialCollector 7) "GET" "/a"
    none none 5 6 (by norm_num)⟩

end FastapiMetrics
